import Mathlib

/-!
# include/linux/neuron.h

A shallow embedding of the three inline functions of the Neuron header:

* `neuron_channel_wakeup` and `neuron_app_wakeup`, the wakeup dispatch through the
  protocol driver currently bound to a channel or an application;
* `neuron_alloc_pskb`, the allocator of a segmented socket buffer.

Machine integers are natural numbers with an explicit reduction modulo `2 ^ 32`
wherever the C code stores into an `unsigned int` field of `struct sk_buff`.
Kernel memory is an explicit heap that is threaded through the code.
-/

namespace Neuron

/-! ## Wakeup dispatch -/

/-- Modelled from the spec: the errno constant `ECONNRESET` (the `NotBound` of the spec)
is defined in include/uapi/asm-generic/errno.h, outside src/, where it is 104. -/
def ECONNRESET : Int := 104

/-- The kinds of channel, `enum neuron_channel_type`. -/
inductive neuron_channel_type where
  | NEURON_CHANNEL_MESSAGE_QUEUE
  | NEURON_CHANNEL_NOTIFICATION
  | NEURON_CHANNEL_SHARED_MEMORY
deriving DecidableEq, Repr

/-- The directions of a channel, `enum neuron_channel_direction`. -/
inductive neuron_channel_direction where
  | NEURON_CHANNEL_SEND
  | NEURON_CHANNEL_RECEIVE
  | NEURON_CHANNEL_BIDIRECTIONAL
deriving DecidableEq, Repr

/-- What the wakeup functions do that is visible from outside, in program order. -/
inductive Event where
  | rcu_read_lock
  | rcu_read_unlock
  | channel_wakeup (protocol : Nat) (id : Nat)
  | app_wakeup (protocol : Nat) (ev : Nat)
deriving DecidableEq, Repr

/-- The state a wakeup runs in: the state `st` of the rest of the kernel, which only the
handlers of a protocol driver read and write, and the trace of events so far. -/
structure World (σ : Type) where
  st : σ
  trace : List Event

/-- A handler of a protocol driver, `int (*)(struct neuron_protocol *, unsigned int)`:
it returns an `int` and may change the state of the kernel. -/
abbrev Handler (σ : Type) := Nat → Nat → σ → Int × σ

/-- The fields of `struct neuron_protocol_driver` that hold numbers or handlers;
a handler that is a null function pointer is `none`. -/
structure neuron_protocol_driver (σ : Type) where
  channel_count : Nat
  process_count : Nat
  channel_wakeup : Option (Handler σ)
  app_wakeup : Option (Handler σ)

/-- The record `struct neuron_channel`; a null `protocol_drv` is `none`. -/
structure neuron_channel (σ : Type) where
  type : neuron_channel_type
  direction : neuron_channel_direction
  max_size : Nat
  queue_length : Nat
  protocol : Nat
  id : Nat
  protocol_drv : Option (neuron_protocol_driver σ)

/-- The record `struct neuron_application`; a null `protocol_drv` is `none`. -/
structure neuron_application (σ : Type) where
  type : String
  protocol : Nat
  protocol_drv : Option (neuron_protocol_driver σ)

/-- Entering the read-side critical section. -/
def rcu_read_lock {σ : Type} (w : World σ) : World σ :=
  { w with trace := w.trace ++ [Event.rcu_read_lock] }

/-- Leaving the read-side critical section. -/
def rcu_read_unlock {σ : Type} (w : World σ) : World σ :=
  { w with trace := w.trace ++ [Event.rcu_read_unlock] }

/-- An indirect call of a handler: the call is recorded, the handler runs on the state of
the kernel, and its return value comes back. -/
def call_handler {σ : Type} (f : Handler σ) (e : Event) (a : Nat) (b : Nat)
    (w : World σ) : Int × World σ :=
  ((f a b w.st).1, { st := (f a b w.st).2, trace := w.trace ++ [e] })

/-- The function `neuron_channel_wakeup`. -/
def neuron_channel_wakeup {σ : Type} (channel : neuron_channel σ) (w : World σ) :
    Int × World σ :=
  let ret : Int := -ECONNRESET
  let w := rcu_read_lock w
  let protocol_drv := channel.protocol_drv
  let r : Int × World σ :=
    match protocol_drv with
    | some drv =>
      match drv.channel_wakeup with
      | some f =>
        call_handler f (Event.channel_wakeup channel.protocol channel.id)
          channel.protocol channel.id w
      | none => (ret, w)
    | none => (ret, w)
  let w := rcu_read_unlock r.2
  (r.1, w)

/-- The function `neuron_app_wakeup`. -/
def neuron_app_wakeup {σ : Type} (application : neuron_application σ) (ev : Nat)
    (w : World σ) : Int × World σ :=
  let ret : Int := -ECONNRESET
  let w := rcu_read_lock w
  let protocol_drv := application.protocol_drv
  let r : Int × World σ :=
    match protocol_drv with
    | some drv =>
      match drv.app_wakeup with
      | some f =>
        call_handler f (Event.app_wakeup application.protocol ev)
          application.protocol ev w
      | none => (ret, w)
    | none => (ret, w)
  let w := rcu_read_unlock r.2
  (r.1, w)

/-! ## Socket buffers and the heap -/

/-- The modulus of an `unsigned int`. -/
def U32 : Nat := 4294967296

/-- The modulus of a `size_t` (64 bits). -/
def SIZE_T : Nat := 18446744073709551616

/-- The fields of `struct sk_buff` that `neuron_alloc_pskb` reads or writes. `len`,
`data_len` and `truesize` are `unsigned int`; `frag_list` is the field of the shared
info of the buffer (`skb_shinfo(skb)->frag_list`). -/
structure sk_buff where
  len : Nat
  data_len : Nat
  truesize : Nat
  next : Option Nat
  frag_list : Option Nat
deriving DecidableEq, Repr

/-- One call of `alloc_skb_with_frags`: the length asked for, the buffer returned
(`none` when the call failed) and the `truesize` the allocator gave it. -/
structure AllocRec where
  data_len : Nat
  skb : Option Nat
  truesize : Nat
deriving DecidableEq, Repr

/-- Kernel memory as far as socket buffers go: the live buffers, the next address the
allocator hands out, and the calls of the allocator so far, oldest first. -/
structure Heap where
  mem : Nat → Option sk_buff
  brk : Nat
  log : List AllocRec

/-- The allocator behind `alloc_skb_with_frags`, which is declared in linux/skbuff.h: for
the number of the call, the length asked for and the gfp flags it answers with an error
code or with the `truesize` of the new buffer. -/
abbrev Allocator := Nat → Nat → Nat → Except Int Nat

/-- The constants `MAX_SKB_FRAGS` (linux/skbuff.h) and `PAGE_SHIFT` (asm/page.h). -/
structure KConfig where
  MAX_SKB_FRAGS : Nat
  PAGE_SHIFT : Nat

/-- The second argument of `min_t` in `neuron_alloc_pskb`,
`(size_t)(MAX_SKB_FRAGS << PAGE_SHIFT)`. -/
def max_frag_len (K : KConfig) : Nat :=
  (K.MAX_SKB_FRAGS <<< K.PAGE_SHIFT) % SIZE_T

/-- Modelled from the spec: `alloc_skb_with_frags` is defined in net/core/skbuff.c,
outside src/. The call `alloc_skb_with_frags(0, data_len, 0, &ret, gfp)` is answered by
the allocator `A`: on success a buffer at a fresh address, with no data yet and both
links null; on failure the error code. Every call is logged. -/
def alloc_skb_with_frags (A : Allocator) (data_len gfp : Nat) (h : Heap) :
    Except Int Nat × Heap :=
  match A h.log.length data_len gfp with
  | Except.error e =>
    (Except.error e, { h with log := h.log ++ [⟨data_len, none, 0⟩] })
  | Except.ok t =>
    (Except.ok h.brk,
      { mem := fun a => if a = h.brk then some ⟨0, 0, t % U32, none, none⟩ else h.mem a,
        brk := h.brk + 1,
        log := h.log ++ [⟨data_len, some h.brk, t % U32⟩] })

/-- A write through a pointer, `p->field = ...`; `none` when `p` is not a live buffer. -/
def Heap.modify (h : Heap) (p : Nat) (f : sk_buff → sk_buff) : Option Heap :=
  match h.mem p with
  | none => none
  | some s => some { h with mem := fun a => if a = p then some (f s) else h.mem a }

/-- The buffer at `p` is given back to the allocator. -/
def Heap.free (h : Heap) (p : Nat) : Heap :=
  { h with mem := fun a => if a = p then none else h.mem a }

/-- Modelled from the spec: `kfree_skb_list` is defined in net/core/skbuff.c, outside
src/. It releases the continuation chain of a buffer, following the `next` links. Every
step releases a live buffer, so the walk is given as many steps as addresses were ever
handed out. -/
def kfree_skb_list : Nat → Option Nat → Heap → Heap
  | 0, _, h => h
  | _ + 1, none, h => h
  | fuel + 1, some p, h =>
    match h.mem p with
    | none => h
    | some s => kfree_skb_list fuel s.next (h.free p)

/-- Modelled from the spec: `kfree_skb` is defined in net/core/skbuff.c, outside src/.
Releasing the head of a buffer releases the head and its whole continuation chain. -/
def kfree_skb (p : Nat) (h : Heap) : Heap :=
  match h.mem p with
  | none => h
  | some s => kfree_skb_list h.brk s.frag_list (h.free p)

/-- The value a call of `neuron_alloc_pskb` comes back with: a buffer, a null pointer,
`ERR_PTR(e)`, or no value at all because the code went through a pointer to a buffer
that is not live. -/
inductive Ret where
  | skb (p : Nat)
  | null
  | err (e : Int)
  | fault
deriving DecidableEq, Repr

/-- The local variables of `neuron_alloc_pskb`; `prev` has no value until the second
segment is linked. -/
structure Locals where
  head_skb : Option Nat
  second_skb : Option Nat
  prev : Option Nat
  data_len : Nat
deriving DecidableEq, Repr

/-- The body of the loop of `neuron_alloc_pskb` after a successful allocation, up to
`head_skb->truesize += new_frag->truesize`: the lengths of the new segment are set and
the segment is linked behind the head. `none` is a write or read through a pointer to a
buffer that is not live. -/
def link_frag (L : Locals) (new_frag : Nat) (frag_len : Nat) (h : Heap) :
    Option (Locals × Heap) := do
  let h ← h.modify new_frag (fun s => { s with data_len := frag_len % U32 })
  let h ← h.modify new_frag (fun s => { s with len := frag_len % U32 })
  match L.head_skb with
  | none => pure ({ L with head_skb := some new_frag }, h)
  | some head_skb =>
    let h ←
      match L.second_skb with
      | none => h.modify head_skb (fun s => { s with frag_list := some new_frag })
      | some _ =>
        match L.prev with
        | none => none
        | some prev => h.modify prev (fun s => { s with next := some new_frag })
    let second_skb :=
      match L.second_skb with
      | none => some new_frag
      | some s => some s
    let nf ← h.mem new_frag
    let h ← h.modify head_skb (fun s => { s with len := (s.len + nf.len) % U32 })
    let nf ← h.mem new_frag
    let h ← h.modify head_skb
      (fun s => { s with data_len := (s.data_len + nf.data_len) % U32 })
    let nf ← h.mem new_frag
    let h ← h.modify head_skb
      (fun s => { s with truesize := (s.truesize + nf.truesize) % U32 })
    pure ({ L with second_skb := second_skb, prev := some new_frag }, h)

/-- The return value `return head_skb`. -/
def Ret.ofPtr : Option Nat → Ret
  | some p => Ret.skb p
  | none => Ret.null

/-- The loop `do ... while (data_len)` of `neuron_alloc_pskb`; every iteration uses one
unit of fuel, and `none` is a run that needs more iterations than there is fuel. -/
def neuron_alloc_pskb_loop (K : KConfig) (A : Allocator) (gfp : Nat) :
    Nat → Locals → Heap → Option (Ret × Heap)
  | 0, _, _ => none
  | fuel + 1, L, h =>
    let frag_len := min L.data_len (max_frag_len K)
    match alloc_skb_with_frags A frag_len gfp h with
    | (Except.error ret, h) =>
      match L.head_skb with
      | some head_skb => some (Ret.err ret, kfree_skb head_skb h)
      | none => some (Ret.err ret, h)
    | (Except.ok new_frag, h) =>
      match link_frag L new_frag frag_len h with
      | none => some (Ret.fault, h)
      | some (L, h) =>
        let data_len := L.data_len - frag_len
        if data_len ≠ 0 then
          neuron_alloc_pskb_loop K A gfp fuel { L with data_len := data_len } h
        else
          some (Ret.ofPtr L.head_skb, h)

/-- The function `neuron_alloc_pskb`, with the fuel of its loop. -/
def neuron_alloc_pskb (K : KConfig) (A : Allocator) (fuel : Nat) (data_len gfp : Nat)
    (h : Heap) : Option (Ret × Heap) :=
  neuron_alloc_pskb_loop K A gfp fuel ⟨none, none, none, data_len⟩ h

/-! ## The state of the loop after a number of iterations -/

/-- The sum `f 0 + ... + f (j - 1)`. -/
def sumTo (f : Nat → Nat) : Nat → Nat
  | 0 => 0
  | j + 1 => sumTo f j + f j

/-- The length the loop asks for in iteration `i` (counted from 0) when the size
requested is `n` and the longest segment is `M`. -/
def fragLen (M n i : Nat) : Nat := min (n - i * M) M

/-- The buffers after `j` successful iterations that started at address `b`: the head at
`b` carries the totals, the continuation segments follow at `b + 1`, ... -/
def memAfter (m0 : Nat → Option sk_buff) (b j : Nat) (r t : Nat → Nat) :
    Nat → Option sk_buff := fun a =>
  if j = 0 then m0 a
  else if a = b then
    some ⟨sumTo r j % U32, sumTo r j % U32, sumTo t j % U32, none,
      if 2 ≤ j then some (b + 1) else none⟩
  else if b < a ∧ a < b + j then
    some ⟨r (a - b) % U32, r (a - b) % U32, t (a - b) % U32,
      if a + 1 < b + j then some (a + 1) else none, none⟩
  else m0 a

/-- The heap after `j` successful iterations from the heap `h0`. -/
def heapAfter (h0 : Heap) (j : Nat) (r t : Nat → Nat) : Heap :=
  { mem := memAfter h0.mem h0.brk j r t,
    brk := h0.brk + j,
    log := h0.log ++ (List.range j).map (fun i => ⟨r i, some (h0.brk + i), t i % U32⟩) }

/-- The local variables after `j` successful iterations. -/
def localsAfter (b j n M : Nat) : Locals :=
  { head_skb := if j = 0 then none else some b,
    second_skb := if 2 ≤ j then some (b + 1) else none,
    prev := if 2 ≤ j then some (b + j - 1) else none,
    data_len := n - j * M }

/-- The buffers when the first `i` of the `j` segments have been released. -/
def memFreed (m0 : Nat → Option sk_buff) (b i j : Nat) (r t : Nat → Nat) :
    Nat → Option sk_buff := fun a =>
  if b ≤ a ∧ a < b + i then none else memAfter m0 b j r t a

/-- The `truesize` the allocator reports in iteration `i` of a call that starts when the
allocator has been called `c0` times (0 when the allocator fails there). -/
def truesizeOf (A : Allocator) (gfp c0 : Nat) (r : Nat → Nat) (i : Nat) : Nat :=
  match A (c0 + i) (r i) gfp with
  | Except.ok t => t
  | Except.error _ => 0

/-- The continuation chain from `p`, following the `next` links. -/
def skb_chain : Nat → Option Nat → Heap → List Nat
  | 0, _, _ => []
  | _ + 1, none, _ => []
  | fuel + 1, some p, h =>
    match h.mem p with
    | none => []
    | some s => p :: skb_chain fuel s.next h

/-- The segments of the buffer with head `p` in chain order: the head, then the
`frag_list` of the head, then the successive `next` links. -/
def skb_segments (h : Heap) (p : Nat) : List Nat :=
  match h.mem p with
  | none => []
  | some s => p :: skb_chain h.brk s.frag_list h

/-! ## Inputs for the examples -/

/-- A configuration for the examples: 17 fragments of 4 KiB pages, 69632 bytes. -/
def sampleConfig : KConfig := ⟨17, 12⟩

/-- An allocator for the examples that always succeeds. -/
def sampleAllocator : Allocator := fun _ len _ => Except.ok (len + 768)

/-- An allocator for the examples whose third call fails with `-ENOBUFS`. -/
def failingAllocator : Allocator :=
  fun i len _ => if i = 2 then Except.error (-105) else Except.ok (len + 768)

/-- A heap for the examples with no live buffer. -/
def emptyHeap : Heap := ⟨fun _ => none, 0, []⟩

/-- A handler for the examples: it counts its calls in the state of the kernel and
returns the sum of its arguments. -/
def sampleHandler : Handler Nat := fun protocol id st => (Int.ofNat (protocol + id), st + 1)

/-- A driver for the examples with both handlers. -/
def sampleDriver : neuron_protocol_driver Nat :=
  { channel_count := 2, process_count := 0,
    channel_wakeup := some sampleHandler, app_wakeup := some sampleHandler }

/-- A driver for the examples with no handler. -/
def silentDriver : neuron_protocol_driver Nat :=
  { channel_count := 2, process_count := 0, channel_wakeup := none, app_wakeup := none }

/-- A channel for the examples, with the driver given. -/
def sampleChannel (drv : Option (neuron_protocol_driver Nat)) : neuron_channel Nat :=
  { type := neuron_channel_type.NEURON_CHANNEL_MESSAGE_QUEUE,
    direction := neuron_channel_direction.NEURON_CHANNEL_RECEIVE,
    max_size := 4096, queue_length := 8, protocol := 7, id := 1, protocol_drv := drv }

/-- An application for the examples, with the driver given. -/
def sampleApp (drv : Option (neuron_protocol_driver Nat)) : neuron_application Nat :=
  { type := "block", protocol := 7, protocol_drv := drv }

/-- A state for the examples. -/
def sampleWorld : World Nat := ⟨0, []⟩

/-! ## Wakeup dispatch: theorems -/

/-- C4: with no driver bound, both wakeups return `-ECONNRESET`, call no handler (the
trace holds the lock and the unlock only) and leave the state of the kernel alone. -/
theorem wakeup_unbound {σ : Type} (channel : neuron_channel σ)
    (application : neuron_application σ) (ev : Nat) (w : World σ)
    (hc : channel.protocol_drv = none) (ha : application.protocol_drv = none) :
    neuron_channel_wakeup channel w =
      (-ECONNRESET,
        ⟨w.st, w.trace ++ [Event.rcu_read_lock, Event.rcu_read_unlock]⟩) ∧
    neuron_app_wakeup application ev w =
      (-ECONNRESET,
        ⟨w.st, w.trace ++ [Event.rcu_read_lock, Event.rcu_read_unlock]⟩) := by
  simp [neuron_channel_wakeup, neuron_app_wakeup, hc, ha, rcu_read_lock, rcu_read_unlock]

theorem wakeup_unbound_witness :
    (sampleChannel none).protocol_drv = none ∧ (sampleApp none).protocol_drv = none ∧
    neuron_channel_wakeup (sampleChannel none) sampleWorld =
      (-ECONNRESET,
        ⟨sampleWorld.st, sampleWorld.trace ++ [Event.rcu_read_lock, Event.rcu_read_unlock]⟩) ∧
    neuron_app_wakeup (sampleApp none) 5 sampleWorld =
      (-ECONNRESET,
        ⟨sampleWorld.st, sampleWorld.trace ++ [Event.rcu_read_lock, Event.rcu_read_unlock]⟩) :=
  ⟨rfl, rfl, wakeup_unbound (sampleChannel none) (sampleApp none) 5 sampleWorld rfl rfl⟩

/-- C5: when the driver bound to a channel has a `channel_wakeup` handler,
`neuron_channel_wakeup` calls it exactly once, inside the read-side critical section, with
the arguments `(channel->protocol, channel->id)`, and returns what the handler returns. -/
theorem channel_wakeup_bound {σ : Type} (channel : neuron_channel σ)
    (drv : neuron_protocol_driver σ) (f : Handler σ) (w : World σ)
    (hd : channel.protocol_drv = some drv) (hf : drv.channel_wakeup = some f) :
    neuron_channel_wakeup channel w =
      ((f channel.protocol channel.id w.st).1,
        ⟨(f channel.protocol channel.id w.st).2,
          w.trace ++ [Event.rcu_read_lock,
            Event.channel_wakeup channel.protocol channel.id, Event.rcu_read_unlock]⟩) := by
  simp [neuron_channel_wakeup, hd, hf, rcu_read_lock, rcu_read_unlock, call_handler]

theorem channel_wakeup_bound_witness :
    (sampleChannel (some sampleDriver)).protocol_drv = some sampleDriver ∧
    sampleDriver.channel_wakeup = some sampleHandler ∧
    neuron_channel_wakeup (sampleChannel (some sampleDriver)) sampleWorld =
      ((sampleHandler (sampleChannel (some sampleDriver)).protocol
          (sampleChannel (some sampleDriver)).id sampleWorld.st).1,
        ⟨(sampleHandler (sampleChannel (some sampleDriver)).protocol
          (sampleChannel (some sampleDriver)).id sampleWorld.st).2,
          sampleWorld.trace ++ [Event.rcu_read_lock,
            Event.channel_wakeup (sampleChannel (some sampleDriver)).protocol
              (sampleChannel (some sampleDriver)).id, Event.rcu_read_unlock]⟩) :=
  ⟨rfl, rfl,
    channel_wakeup_bound (sampleChannel (some sampleDriver)) sampleDriver sampleHandler
      sampleWorld rfl rfl⟩

/-- C6: when the driver bound to an application has an `app_wakeup` handler,
`neuron_app_wakeup` calls it exactly once, inside the read-side critical section, with the
arguments `(application->protocol, ev)`, and returns what the handler returns. -/
theorem app_wakeup_bound {σ : Type} (application : neuron_application σ)
    (drv : neuron_protocol_driver σ) (f : Handler σ) (ev : Nat) (w : World σ)
    (hd : application.protocol_drv = some drv) (hf : drv.app_wakeup = some f) :
    neuron_app_wakeup application ev w =
      ((f application.protocol ev w.st).1,
        ⟨(f application.protocol ev w.st).2,
          w.trace ++ [Event.rcu_read_lock,
            Event.app_wakeup application.protocol ev, Event.rcu_read_unlock]⟩) := by
  simp [neuron_app_wakeup, hd, hf, rcu_read_lock, rcu_read_unlock, call_handler]

theorem app_wakeup_bound_witness :
    (sampleApp (some sampleDriver)).protocol_drv = some sampleDriver ∧
    sampleDriver.app_wakeup = some sampleHandler ∧
    neuron_app_wakeup (sampleApp (some sampleDriver)) 5 sampleWorld =
      ((sampleHandler (sampleApp (some sampleDriver)).protocol 5 sampleWorld.st).1,
        ⟨(sampleHandler (sampleApp (some sampleDriver)).protocol 5 sampleWorld.st).2,
          sampleWorld.trace ++ [Event.rcu_read_lock,
            Event.app_wakeup (sampleApp (some sampleDriver)).protocol 5,
            Event.rcu_read_unlock]⟩) :=
  ⟨rfl, rfl,
    app_wakeup_bound (sampleApp (some sampleDriver)) sampleDriver sampleHandler 5
      sampleWorld rfl rfl⟩

/-- C10: when the driver bound to a channel (an application) has no `channel_wakeup`
(`app_wakeup`) handler, the wakeup calls nothing and returns `-ECONNRESET`, as with no
driver bound; so the value a wakeup returns is `-ECONNRESET` when the driver or its
handler is absent and the return value of the handler otherwise. -/
theorem wakeup_no_handler {σ : Type} (channel : neuron_channel σ)
    (application : neuron_application σ) (dc da : neuron_protocol_driver σ)
    (ev : Nat) (w : World σ)
    (hc : channel.protocol_drv = some dc) (hcn : dc.channel_wakeup = none)
    (ha : application.protocol_drv = some da) (han : da.app_wakeup = none) :
    neuron_channel_wakeup channel w =
      (-ECONNRESET,
        ⟨w.st, w.trace ++ [Event.rcu_read_lock, Event.rcu_read_unlock]⟩) ∧
    neuron_app_wakeup application ev w =
      (-ECONNRESET,
        ⟨w.st, w.trace ++ [Event.rcu_read_lock, Event.rcu_read_unlock]⟩) ∧
    (∀ (c : neuron_channel σ) (v : World σ),
      (neuron_channel_wakeup c v).1 =
        match c.protocol_drv.bind (fun d => d.channel_wakeup) with
        | none => -ECONNRESET
        | some f => (f c.protocol c.id v.st).1) ∧
    (∀ (a : neuron_application σ) (x : Nat) (v : World σ),
      (neuron_app_wakeup a x v).1 =
        match a.protocol_drv.bind (fun d => d.app_wakeup) with
        | none => -ECONNRESET
        | some f => (f a.protocol x v.st).1) := by
  refine ⟨?_, ?_, ?_, ?_⟩
  · simp [neuron_channel_wakeup, hc, hcn, rcu_read_lock, rcu_read_unlock]
  · simp [neuron_app_wakeup, ha, han, rcu_read_lock, rcu_read_unlock]
  · intro c v
    cases hd : c.protocol_drv with
    | none => simp [neuron_channel_wakeup, hd]
    | some d =>
      cases hf : d.channel_wakeup with
      | none => simp [neuron_channel_wakeup, hd, hf]
      | some f => simp [neuron_channel_wakeup, hd, hf, call_handler, rcu_read_lock]
  · intro a x v
    cases hd : a.protocol_drv with
    | none => simp [neuron_app_wakeup, hd]
    | some d =>
      cases hf : d.app_wakeup with
      | none => simp [neuron_app_wakeup, hd, hf]
      | some f => simp [neuron_app_wakeup, hd, hf, call_handler, rcu_read_lock]

theorem wakeup_no_handler_witness :
    (sampleChannel (some silentDriver)).protocol_drv = some silentDriver ∧
    silentDriver.channel_wakeup = none ∧
    (sampleApp (some silentDriver)).protocol_drv = some silentDriver ∧
    silentDriver.app_wakeup = none ∧
    neuron_channel_wakeup (sampleChannel (some silentDriver)) sampleWorld =
      (-ECONNRESET,
        ⟨sampleWorld.st, sampleWorld.trace ++ [Event.rcu_read_lock, Event.rcu_read_unlock]⟩) ∧
    neuron_app_wakeup (sampleApp (some silentDriver)) 5 sampleWorld =
      (-ECONNRESET,
        ⟨sampleWorld.st, sampleWorld.trace ++ [Event.rcu_read_lock, Event.rcu_read_unlock]⟩) :=
  have h := wakeup_no_handler (sampleChannel (some silentDriver)) (sampleApp (some silentDriver))
    silentDriver silentDriver 5 sampleWorld rfl rfl rfl rfl
  ⟨rfl, rfl, rfl, rfl, h.1, h.2.1⟩

/-! ## The allocator of segmented buffers: theorems -/

theorem link_frag_ge2 (m0 : Nat → Option sk_buff) (b j n M : Nat) (r t : Nat → Nat)
    (lg : List AllocRec) (hj : 2 ≤ j) :
    link_frag (localsAfter b j n M) (b + j) (r j)
      { mem := fun a => if a = b + j then some ⟨0, 0, t j % U32, none, none⟩
                        else memAfter m0 b j r t a,
        brk := b + j + 1, log := lg } =
    some ({ localsAfter b (j + 1) n M with data_len := n - j * M },
      { mem := memAfter m0 b (j + 1) r t, brk := b + j + 1, log := lg }) := by
  have e1 : ¬ j = 0 := by omega
  have e2 : ¬ b = b + j := by omega
  have e7 : 2 ≤ j + 1 := by omega
  simp only [localsAfter]
  have hp : ∃ p, p = b + j - 1 := ⟨_, rfl⟩
  obtain ⟨p, hp⟩ := hp
  rw [← hp]
  have e3 : ¬ p = b + j := by omega
  have e4 : ¬ p = b := by omega
  have e5 : b < p ∧ p < b + j := by omega
  have e6 : ¬ p + 1 < b + j := by omega
  have e8 : ¬ b + j = p := by omega
  have e9 : ¬ b = p := by omega
  simp [link_frag, Heap.modify, memAfter, sumTo, e1, e2, e3, e4, e5, e6, e7, e8, e9, hj]
  funext a
  simp only [memAfter]
  by_cases h1 : a = b
  · simp [h1, e1, e7, sumTo]
  · by_cases h2 : a = b + j
    · have h3 : ¬ b + j + 1 < b + (j + 1) := by omega
      have h4 : 0 < j := by omega
      simp [h2, e1, e7, e8, sumTo, h3, h4]
    · by_cases h3 : a = p
      · have h4 : b < p ∧ p < b + (j + 1) := by omega
        have h5 : p + 1 < b + (j + 1) := by omega
        have h6 : p + 1 = b + j := by omega
        subst h3
        simp [h1, h2, h4, h5, h6]
      · simp only [h1, h2, h3, if_false, Nat.add_one_ne_zero]
        by_cases h4 : b < a ∧ a < b + j
        · have h5 : b < a ∧ a < b + (j + 1) := by omega
          have h6 : a + 1 < b + j := by omega
          have h7 : a + 1 < b + (j + 1) := by omega
          simp [h4, h5, h6, h7]
        · have h5 : ¬ (b < a ∧ a < b + (j + 1)) := by omega
          simp [h4, h5]

theorem link_frag_zero (m0 : Nat → Option sk_buff) (b n M : Nat) (r t : Nat → Nat)
    (lg : List AllocRec) :
    link_frag (localsAfter b 0 n M) (b + 0) (r 0)
      { mem := fun a => if a = b + 0 then some ⟨0, 0, t 0 % U32, none, none⟩
                        else memAfter m0 b 0 r t a,
        brk := b + 0 + 1, log := lg } =
    some ({ localsAfter b (0 + 1) n M with data_len := n - 0 * M },
      { mem := memAfter m0 b (0 + 1) r t, brk := b + 0 + 1, log := lg }) := by
  simp [link_frag, localsAfter, Heap.modify, memAfter, sumTo]
  funext a
  simp only [memAfter]
  by_cases h1 : a = b
  · simp [h1, sumTo]
  · have h2 : ¬ (b < a ∧ a < b + 1) := by omega
    simp [h1, h2]

theorem link_frag_one (m0 : Nat → Option sk_buff) (b n M : Nat) (r t : Nat → Nat)
    (lg : List AllocRec) :
    link_frag (localsAfter b 1 n M) (b + 1) (r 1)
      { mem := fun a => if a = b + 1 then some ⟨0, 0, t 1 % U32, none, none⟩
                        else memAfter m0 b 1 r t a,
        brk := b + 1 + 1, log := lg } =
    some ({ localsAfter b (1 + 1) n M with data_len := n - 1 * M },
      { mem := memAfter m0 b (1 + 1) r t, brk := b + 1 + 1, log := lg }) := by
  simp [link_frag, localsAfter, Heap.modify, memAfter, sumTo]
  funext a
  simp only [memAfter]
  by_cases h1 : a = b
  · simp [h1, sumTo]
  · by_cases h2 : a = b + 1
    · simp [h2]
    · have h3 : ¬ (b < a ∧ a < b + 1) := by omega
      have h4 : ¬ (b < a ∧ a < b + (1 + 1)) := by omega
      simp [h1, h2, h3, h4]

theorem link_frag_after (m0 : Nat → Option sk_buff) (b j n M : Nat) (r t : Nat → Nat)
    (lg : List AllocRec) :
    link_frag (localsAfter b j n M) (b + j) (r j)
      { mem := fun a => if a = b + j then some ⟨0, 0, t j % U32, none, none⟩
                        else memAfter m0 b j r t a,
        brk := b + j + 1, log := lg } =
    some ({ localsAfter b (j + 1) n M with data_len := n - j * M },
      { mem := memAfter m0 b (j + 1) r t, brk := b + j + 1, log := lg }) := by
  rcases Nat.lt_trichotomy j 1 with h | h | h
  · have h0 : j = 0 := by omega
    subst h0
    exact link_frag_zero m0 b n M r t lg
  · subst h
    exact link_frag_one m0 b n M r t lg
  · exact link_frag_ge2 m0 b j n M r t lg h

theorem heapAfter_zero (h0 : Heap) (r t : Nat → Nat) : heapAfter h0 0 r t = h0 := by
  cases h0
  simp only [heapAfter, Nat.add_zero, List.range_zero, List.map_nil, List.append_nil,
    Heap.mk.injEq, and_true]
  funext a
  simp [memAfter]

theorem localsAfter_zero (b n M : Nat) : localsAfter b 0 n M = ⟨none, none, none, n⟩ := by
  simp [localsAfter]

theorem sub_fragLen (M n j : Nat) : n - j * M - fragLen M n j = n - (j + 1) * M := by
  unfold fragLen
  rw [Nat.succ_mul]
  omega

theorem loop_step (K : KConfig) (A : Allocator) (gfp : Nat) (h0 : Heap) (n j fuel : Nat)
    (t : Nat → Nat)
    (hA : A (h0.log.length + j) (fragLen (max_frag_len K) n j) gfp = Except.ok (t j)) :
    neuron_alloc_pskb_loop K A gfp (fuel + 1) (localsAfter h0.brk j n (max_frag_len K))
        (heapAfter h0 j (fragLen (max_frag_len K) n) t) =
      if n - (j + 1) * max_frag_len K ≠ 0 then
        neuron_alloc_pskb_loop K A gfp fuel (localsAfter h0.brk (j + 1) n (max_frag_len K))
          (heapAfter h0 (j + 1) (fragLen (max_frag_len K) n) t)
      else some (Ret.skb h0.brk, heapAfter h0 (j + 1) (fragLen (max_frag_len K) n) t) := by
  rw [neuron_alloc_pskb_loop]
  have hfl : min (localsAfter h0.brk j n (max_frag_len K)).data_len (max_frag_len K)
      = fragLen (max_frag_len K) n j := rfl
  simp only [hfl]
  have hal : alloc_skb_with_frags A (fragLen (max_frag_len K) n j) gfp
      (heapAfter h0 j (fragLen (max_frag_len K) n) t) =
      (Except.ok (h0.brk + j),
        { mem := fun a => if a = h0.brk + j then some ⟨0, 0, t j % U32, none, none⟩
                          else memAfter h0.mem h0.brk j (fragLen (max_frag_len K) n) t a,
          brk := h0.brk + j + 1,
          log := (heapAfter h0 (j + 1) (fragLen (max_frag_len K) n) t).log }) := by
    simp [alloc_skb_with_frags, heapAfter, hA, List.range_succ]
  rw [hal]
  simp only [link_frag_after]
  have hd : ({ localsAfter h0.brk (j + 1) n (max_frag_len K) with
      data_len := n - j * max_frag_len K } : Locals).data_len
      - fragLen (max_frag_len K) n j = n - (j + 1) * max_frag_len K := sub_fragLen _ _ _
  simp only [hd]
  have hh : ({ localsAfter h0.brk (j + 1) n (max_frag_len K) with
      data_len := n - j * max_frag_len K } : Locals).head_skb = some h0.brk := by
    simp [localsAfter]
  simp only [hh, Ret.ofPtr]
  rfl

theorem loop_fail (K : KConfig) (A : Allocator) (gfp : Nat) (h0 : Heap) (n j fuel : Nat)
    (t : Nat → Nat) (e : Int)
    (hA : A (h0.log.length + j) (fragLen (max_frag_len K) n j) gfp = Except.error e) :
    neuron_alloc_pskb_loop K A gfp (fuel + 1) (localsAfter h0.brk j n (max_frag_len K))
        (heapAfter h0 j (fragLen (max_frag_len K) n) t) =
      some (Ret.err e,
        if j = 0 then
          { h0 with log := h0.log ++ [⟨fragLen (max_frag_len K) n 0, none, 0⟩] }
        else
          kfree_skb h0.brk
            { heapAfter h0 j (fragLen (max_frag_len K) n) t with
              log := (heapAfter h0 j (fragLen (max_frag_len K) n) t).log ++
                [⟨fragLen (max_frag_len K) n j, none, 0⟩] }) := by
  rw [neuron_alloc_pskb_loop]
  have hfl : min (localsAfter h0.brk j n (max_frag_len K)).data_len (max_frag_len K)
      = fragLen (max_frag_len K) n j := rfl
  simp only [hfl]
  have hal : alloc_skb_with_frags A (fragLen (max_frag_len K) n j) gfp
      (heapAfter h0 j (fragLen (max_frag_len K) n) t) =
      (Except.error e,
        { heapAfter h0 j (fragLen (max_frag_len K) n) t with
          log := (heapAfter h0 j (fragLen (max_frag_len K) n) t).log ++
            [⟨fragLen (max_frag_len K) n j, none, 0⟩] }) := by
    simp [alloc_skb_with_frags, heapAfter, hA]
  rw [hal]
  by_cases hj : j = 0
  · subst hj
    simp [localsAfter, heapAfter_zero]
  · simp [localsAfter, hj]

theorem kfree_skb_list_after (m0 : Nat → Option sk_buff) (b j : Nat) (r t : Nat → Nat)
    (lg : List AllocRec) (bk : Nat) :
    ∀ (d i fuel : Nat), 1 ≤ i → i + d = j → d ≤ fuel →
      kfree_skb_list fuel (if i < j then some (b + i) else none)
        { mem := memFreed m0 b i j r t, brk := bk, log := lg } =
        { mem := memFreed m0 b j j r t, brk := bk, log := lg } := by
  intro d
  induction d with
  | zero =>
    intro i fuel _ hij _
    have : ¬ i < j := by omega
    have hi : i = j := by omega
    subst hi
    cases fuel <;> simp [kfree_skb_list]
  | succ d ih =>
    intro i fuel hi hij hf
    obtain ⟨f, rfl⟩ : ∃ f, fuel = f + 1 := ⟨fuel - 1, by omega⟩
    have h1 : i < j := by omega
    have h2 : ¬ (b ≤ b + i ∧ b + i < b + i) := by omega
    have h3 : ¬ j = 0 := by omega
    have h4 : ¬ b + i = b := by omega
    have h5 : b < b + i ∧ b + i < b + j := by omega
    have hm : memFreed m0 b i j r t (b + i) =
        some ⟨r i % U32, r i % U32, t i % U32,
          if i + 1 < j then some (b + (i + 1)) else none, none⟩ := by
      simp only [memFreed, memAfter, h2, h3, h4, h5, if_false, if_true, and_self]
      have h7 : b + i - b = i := by omega
      have h8 : (b + (i + 1) < b + j) = (i + 1 < j) := by
        apply propext; constructor <;> intro <;> omega
      simp only [h7, Nat.add_assoc, h8]
    simp only [h1, if_true, kfree_skb_list, hm, Heap.free]
    have hfree : (fun a => if a = b + i then none else memFreed m0 b i j r t a)
        = memFreed m0 b (i + 1) j r t := by
      funext a
      simp only [memFreed]
      by_cases ha : a = b + i
      · have : b ≤ a ∧ a < b + (i + 1) := by omega
        simp [ha]
      · by_cases hb : b ≤ a ∧ a < b + i
        · have : b ≤ a ∧ a < b + (i + 1) := by omega
          simp [ha, hb, this]
        · have : ¬ (b ≤ a ∧ a < b + (i + 1)) := by omega
          simp [ha, hb, this]
    rw [hfree]
    exact ih (i + 1) f (by omega) (by omega) (by omega)

theorem memFreed_all (m0 : Nat → Option sk_buff) (b j : Nat) (r t : Nat → Nat)
    (hwf : ∀ a, b ≤ a → m0 a = none) : memFreed m0 b j j r t = m0 := by
  funext a
  simp only [memFreed, memAfter]
  by_cases h1 : b ≤ a ∧ a < b + j
  · simp [h1, hwf a h1.1]
  · by_cases h2 : j = 0
    · simp [h1, h2]
    · have h3 : ¬ a = b := by omega
      have h4 : ¬ (b < a ∧ a < b + j) := by omega
      simp [h1, h2, h3, h4]

theorem kfree_skb_after (m0 : Nat → Option sk_buff) (b j : Nat) (r t : Nat → Nat)
    (lg : List AllocRec) (hj : 1 ≤ j) (hwf : ∀ a, b ≤ a → m0 a = none) :
    kfree_skb b { mem := memAfter m0 b j r t, brk := b + j, log := lg } =
      { mem := m0, brk := b + j, log := lg } := by
  have h3 : ¬ j = 0 := by omega
  have hm : memAfter m0 b j r t b = some ⟨sumTo r j % U32, sumTo r j % U32, sumTo t j % U32,
      none, if 1 < j then some (b + 1) else none⟩ := by
    simp only [memAfter, h3, if_false, if_true]
    rfl
  simp only [kfree_skb, hm, Heap.free]
  have hfree : (fun a => if a = b then none else memAfter m0 b j r t a)
      = memFreed m0 b 1 j r t := by
    funext a
    simp only [memFreed]
    by_cases ha : a = b
    · simp [ha]
    · have : ¬ (b ≤ a ∧ a < b + 1) := by omega
      simp [ha, this]
  rw [hfree, kfree_skb_list_after m0 b j r t lg (b + j) (j - 1) 1 (b + j) (by omega)
    (by omega) (by omega), memFreed_all m0 b j r t hwf]

theorem truesizeOf_spec (A : Allocator) (gfp c0 : Nat) (r : Nat → Nat) (i : Nat)
    (h : ∃ t, A (c0 + i) (r i) gfp = Except.ok t) :
    A (c0 + i) (r i) gfp = Except.ok (truesizeOf A gfp c0 r i) := by
  obtain ⟨t, ht⟩ := h
  simp [truesizeOf, ht]

theorem loop_advance (K : KConfig) (A : Allocator) (gfp : Nat) (h0 : Heap) (n : Nat)
    (t : Nat → Nat) :
    ∀ (d j fuel : Nat),
      (∀ i, j ≤ i → i < j + d →
        A (h0.log.length + i) (fragLen (max_frag_len K) n i) gfp = Except.ok (t i)) →
      (d = 0 ∨ (j + d) * max_frag_len K < n) →
      neuron_alloc_pskb_loop K A gfp (fuel + d) (localsAfter h0.brk j n (max_frag_len K))
          (heapAfter h0 j (fragLen (max_frag_len K) n) t) =
        neuron_alloc_pskb_loop K A gfp fuel
          (localsAfter h0.brk (j + d) n (max_frag_len K))
          (heapAfter h0 (j + d) (fragLen (max_frag_len K) n) t) := by
  intro d
  induction d with
  | zero => intro j fuel _ _; rfl
  | succ d ih =>
    intro j fuel hA hlt
    have hlt2 : (j + (d + 1)) * max_frag_len K < n := by
      rcases hlt with h | h
      · omega
      · exact h
    have hmono : (j + 1) * max_frag_len K ≤ (j + (d + 1)) * max_frag_len K :=
      Nat.mul_le_mul_right _ (by omega)
    have hne : n - (j + 1) * max_frag_len K ≠ 0 := by omega
    have e1 : fuel + (d + 1) = (fuel + d) + 1 := by omega
    rw [e1, loop_step K A gfp h0 n j (fuel + d) t (hA j (by omega) (by omega)), if_pos hne]
    have e2 : j + (d + 1) = (j + 1) + d := by omega
    rw [e2]
    apply ih (j + 1) fuel
    · intro i h1 h2
      exact hA i (by omega) (by omega)
    · right
      rw [← e2]
      exact hlt2

/-- A run in which the first `d + 1` allocations succeed and the size asked for is
covered by `d + 1` segments but not by `d`. -/
theorem loop_success (K : KConfig) (A : Allocator) (gfp : Nat) (h0 : Heap) (n d fuel : Nat)
    (t : Nat → Nat)
    (hA : ∀ i, i < d + 1 →
      A (h0.log.length + i) (fragLen (max_frag_len K) n i) gfp = Except.ok (t i))
    (hlo : d = 0 ∨ d * max_frag_len K < n) (hhi : n ≤ (d + 1) * max_frag_len K)
    (hfuel : d + 1 ≤ fuel) :
    neuron_alloc_pskb K A fuel n gfp h0 =
      some (Ret.skb h0.brk, heapAfter h0 (d + 1) (fragLen (max_frag_len K) n) t) := by
  obtain ⟨f, rfl⟩ : ∃ f, fuel = (f + 1) + d := ⟨fuel - d - 1, by omega⟩
  unfold neuron_alloc_pskb
  have e0 := loop_advance K A gfp h0 n t d 0 (f + 1) (fun i _ h2 => hA i (by omega))
    (by rcases hlo with h | h
        · left; exact h
        · right; rw [Nat.zero_add]; exact h)
  rw [localsAfter_zero, heapAfter_zero, Nat.zero_add] at e0
  rw [e0, loop_step K A gfp h0 n d f t (hA d (by omega))]
  have hz : ¬ (n - (d + 1) * max_frag_len K ≠ 0) := by omega
  rw [if_neg hz]

/-- A run in which the first `d` allocations succeed and the next one fails. -/
theorem loop_failure (K : KConfig) (A : Allocator) (gfp : Nat) (h0 : Heap) (n d fuel : Nat)
    (t : Nat → Nat) (e : Int)
    (hwf : ∀ a, h0.brk ≤ a → h0.mem a = none)
    (hA : ∀ i, i < d →
      A (h0.log.length + i) (fragLen (max_frag_len K) n i) gfp = Except.ok (t i))
    (hE : A (h0.log.length + d) (fragLen (max_frag_len K) n d) gfp = Except.error e)
    (hlo : d = 0 ∨ d * max_frag_len K < n)
    (hfuel : d + 1 ≤ fuel) :
    neuron_alloc_pskb K A fuel n gfp h0 =
      some (Ret.err e,
        { mem := h0.mem, brk := h0.brk + d,
          log := (heapAfter h0 d (fragLen (max_frag_len K) n) t).log ++
            [⟨fragLen (max_frag_len K) n d, none, 0⟩] }) := by
  obtain ⟨f, rfl⟩ : ∃ f, fuel = (f + 1) + d := ⟨fuel - d - 1, by omega⟩
  unfold neuron_alloc_pskb
  have e0 := loop_advance K A gfp h0 n t d 0 (f + 1) (fun i _ h2 => hA i (by omega))
    (by rcases hlo with h | h
        · left; exact h
        · right; rw [Nat.zero_add]; exact h)
  rw [localsAfter_zero, heapAfter_zero, Nat.zero_add] at e0
  rw [e0, loop_fail K A gfp h0 n d f t e hE]
  by_cases hd : d = 0
  · subst hd
    simp [heapAfter]
  · simp only [hd, if_false]
    have := kfree_skb_after h0.mem h0.brk d (fragLen (max_frag_len K) n) t
      ((heapAfter h0 d (fragLen (max_frag_len K) n) t).log ++
            [⟨fragLen (max_frag_len K) n d, none, 0⟩]) (by omega) hwf
    simp only [heapAfter] at this ⊢
    rw [this]

theorem div_bounds (M n : Nat) (hM : 0 < M) :
    ((n - 1) / M = 0 ∨ (n - 1) / M * M < n) ∧ n ≤ ((n - 1) / M + 1) * M := by
  have h1 : (n - 1) / M * M ≤ n - 1 := Nat.div_mul_le_self _ _
  have h2 : n - 1 < M * ((n - 1) / M + 1) := Nat.lt_mul_div_succ _ hM
  rw [Nat.mul_comm] at h2
  constructor
  · by_cases h : (n - 1) / M = 0
    · left; exact h
    · right
      have : 0 < (n - 1) / M := Nat.pos_of_ne_zero h
      have : 0 < n - 1 := by
        by_contra hc
        have : n - 1 = 0 := by omega
        simp [this] at h
      omega
  · omega

theorem ceil_eq (M n : Nat) (hM : 0 < M) (hn : 0 < n) :
    (n + M - 1) / M = (n - 1) / M + 1 := by
  have : n + M - 1 = (n - 1) + M := by omega
  rw [this, Nat.add_div_right _ hM]

theorem fragLen_full (M n i d : Nat) (hi : i < d) (hd : d * M < n) : fragLen M n i = M := by
  have h1 : (i + 1) * M ≤ d * M := Nat.mul_le_mul_right _ (by omega)
  rw [Nat.succ_mul] at h1
  unfold fragLen
  omega

theorem fragLen_last (M n d : Nat) (hhi : n ≤ (d + 1) * M) : fragLen M n d = n - d * M := by
  rw [Nat.succ_mul] at hhi
  unfold fragLen
  omega

theorem fragLen_le (M n i : Nat) : fragLen M n i ≤ M := by
  unfold fragLen
  omega

theorem sumTo_fragLen (M n : Nat) : ∀ j, sumTo (fragLen M n) j = min n (j * M) := by
  intro j
  induction j with
  | zero => simp [sumTo]
  | succ j ih =>
    rw [sumTo, ih, Nat.succ_mul]
    unfold fragLen
    omega

theorem sumTo_mod (t : Nat → Nat) (U : Nat) :
    ∀ j, sumTo (fun i => t i % U) j % U = sumTo t j % U := by
  intro j
  induction j with
  | zero => rfl
  | succ j ih =>
    simp only [sumTo]
    rw [Nat.add_mod, ih, Nat.mod_mod, ← Nat.add_mod]

theorem sum_map_range (f : Nat → Nat) : ∀ j, ((List.range j).map f).sum = sumTo f j := by
  intro j
  induction j with
  | zero => rfl
  | succ j ih => simp [List.range_succ, sumTo, ih]

theorem map_range_replicate (f : Nat → Nat) (M : Nat) :
    ∀ d, (∀ i, i < d → f i = M) → (List.range d).map f = List.replicate d M := by
  intro d
  induction d with
  | zero => intro _; rfl
  | succ d ih =>
    intro h
    rw [List.range_succ, List.map_append, ih (fun i hi => h i (by omega)),
      List.replicate_succ']
    simp [h d (by omega)]

theorem heapAfter_news (h0 : Heap) (j : Nat) (r t : Nat → Nat) :
    (heapAfter h0 j r t).log.drop h0.log.length =
      (List.range j).map (fun i => (⟨r i, some (h0.brk + i), t i % U32⟩ : AllocRec)) := by
  simp [heapAfter]

theorem heapAfter_head (h0 : Heap) (j : Nat) (r t : Nat → Nat) (hj : 1 ≤ j) :
    (heapAfter h0 j r t).mem h0.brk =
      some ⟨sumTo r j % U32, sumTo r j % U32, sumTo t j % U32, none,
        if 2 ≤ j then some (h0.brk + 1) else none⟩ := by
  have : ¬ j = 0 := by omega
  simp [heapAfter, memAfter, this]

theorem heapAfter_cont (h0 : Heap) (j i : Nat) (r t : Nat → Nat) (h1 : 1 ≤ i) (h2 : i < j) :
    (heapAfter h0 j r t).mem (h0.brk + i) =
      some ⟨r i % U32, r i % U32, t i % U32,
        if i + 1 < j then some (h0.brk + (i + 1)) else none, none⟩ := by
  have e1 : ¬ j = 0 := by omega
  have e2 : ¬ i = 0 := by omega
  have e3 : 0 < i := by omega
  have e4 : (h0.brk + i + 1 < h0.brk + j) = (i + 1 < j) := by
    apply propext; constructor <;> intro <;> omega
  simp [heapAfter, memAfter, e1, e2, e3, h2, e4, Nat.add_assoc]

theorem skb_chain_after (h0 : Heap) (j : Nat) (r t : Nat → Nat) :
    ∀ (d i fuel : Nat), 1 ≤ i → i + d = j → d ≤ fuel →
      skb_chain fuel (if i < j then some (h0.brk + i) else none) (heapAfter h0 j r t) =
        List.range' (h0.brk + i) d := by
  intro d
  induction d with
  | zero =>
    intro i fuel _ hij _
    have : ¬ i < j := by omega
    cases fuel <;> simp [skb_chain, this]
  | succ d ih =>
    intro i fuel hi hij hf
    obtain ⟨f, rfl⟩ : ∃ f, fuel = f + 1 := ⟨fuel - 1, by omega⟩
    have h1 : i < j := by omega
    simp only [h1, if_true, skb_chain, heapAfter_cont h0 j i r t hi h1, List.range'_succ]
    rw [ih (i + 1) f (by omega) (by omega) (by omega)]
    rfl

theorem skb_segments_after (h0 : Heap) (j : Nat) (r t : Nat → Nat) (hj : 1 ≤ j) :
    skb_segments (heapAfter h0 j r t) h0.brk = List.range' h0.brk j := by
  obtain ⟨d, rfl⟩ : ∃ d, j = d + 1 := ⟨j - 1, by omega⟩
  simp only [skb_segments, heapAfter_head h0 (d + 1) r t hj, List.range'_succ]
  have e : (2 ≤ d + 1) = (1 < d + 1) := by
    apply propext; constructor <;> intro <;> omega
  simp only [e]
  rw [skb_chain_after h0 (d + 1) r t d 1 _ (by omega) (by omega)
    (by simp [heapAfter]; omega)]

theorem alloc_pskb_run (K : KConfig) (A : Allocator) (gfp n : Nat) (h0 : Heap) (fuel : Nat)
    (hM : 0 < max_frag_len K)
    (hA : ∀ i, i < (n - 1) / max_frag_len K + 1 →
      ∃ t, A (h0.log.length + i) (fragLen (max_frag_len K) n i) gfp = Except.ok t)
    (hfuel : (n - 1) / max_frag_len K + 1 ≤ fuel) :
    neuron_alloc_pskb K A fuel n gfp h0 =
      some (Ret.skb h0.brk,
        heapAfter h0 ((n - 1) / max_frag_len K + 1) (fragLen (max_frag_len K) n)
          (truesizeOf A gfp h0.log.length (fragLen (max_frag_len K) n))) := by
  obtain ⟨hlo, hhi⟩ := div_bounds (max_frag_len K) n hM
  exact loop_success K A gfp h0 n _ fuel _
    (fun i hi => truesizeOf_spec A gfp h0.log.length _ i (hA i hi)) hlo hhi hfuel

theorem sumTo_fragLen_all (M n : Nat) (hM : 0 < M) :
    sumTo (fragLen M n) ((n - 1) / M + 1) = n := by
  rw [sumTo_fragLen]
  have := (div_bounds M n hM).2
  omega

theorem news_lens (h0 : Heap) (j : Nat) (r t : Nat → Nat) :
    ((heapAfter h0 j r t).log.drop h0.log.length).map AllocRec.data_len =
      (List.range j).map r := by
  rw [heapAfter_news, List.map_map]
  rfl

theorem news_truesize (h0 : Heap) (j : Nat) (r t : Nat → Nat) :
    ((heapAfter h0 j r t).log.drop h0.log.length).map AllocRec.truesize =
      (List.range j).map (fun i => t i % U32) := by
  rw [heapAfter_news, List.map_map]
  rfl

theorem news_skb (h0 : Heap) (j : Nat) (r t : Nat → Nat) :
    ((heapAfter h0 j r t).log.drop h0.log.length).map AllocRec.skb =
      (List.range' h0.brk j).map some := by
  rw [heapAfter_news, List.map_map, List.range'_eq_map_range, List.map_map]
  rfl

theorem sumTo_le (f g : Nat → Nat) :
    ∀ j, (∀ i, i < j → f i ≤ g i) → sumTo f j ≤ sumTo g j := by
  intro j
  induction j with
  | zero => intro _; exact Nat.le_refl _
  | succ j ih =>
    intro h
    have h1 := ih (fun i hi => h i (by omega))
    have h2 := h j (by omega)
    simp only [sumTo]
    omega

/-- The head of the buffer that a successful call returns carries the totals of the
segments modulo `2 ^ 32`. -/
theorem alloc_pskb_head (K : KConfig) (A : Allocator) (gfp n : Nat) (h0 : Heap) (fuel : Nat)
    (hM : 0 < max_frag_len K)
    (hA : ∀ i, i < (n - 1) / max_frag_len K + 1 →
      ∃ t, A (h0.log.length + i) (fragLen (max_frag_len K) n i) gfp = Except.ok t)
    (hfuel : (n - 1) / max_frag_len K + 1 ≤ fuel) :
    ∃ h' s, neuron_alloc_pskb K A fuel n gfp h0 = some (Ret.skb h0.brk, h') ∧
      h'.mem h0.brk = some s ∧ s.len = n % U32 ∧ s.data_len = n % U32 ∧
      s.truesize = ((h'.log.drop h0.log.length).map AllocRec.truesize).sum % U32 ∧
      ((h'.log.drop h0.log.length).map AllocRec.data_len).sum = n ∧
      h' = heapAfter h0 ((n - 1) / max_frag_len K + 1) (fragLen (max_frag_len K) n)
          (truesizeOf A gfp h0.log.length (fragLen (max_frag_len K) n)) := by
  refine ⟨_, _, alloc_pskb_run K A gfp n h0 fuel hM hA hfuel,
    heapAfter_head h0 _ _ _ (Nat.le_add_left 1 _), ?_, ?_, ?_, ?_, rfl⟩
  · simp only [sumTo_fragLen_all _ _ hM]
  · simp only [sumTo_fragLen_all _ _ hM]
  · rw [news_truesize, sum_map_range, sumTo_mod]
  · rw [news_lens, sum_map_range, sumTo_fragLen_all _ _ hM]

/-- C1 (amended): for every size `n`, whenever each segment allocation that the call
makes succeeds (the allocator may fail at any other call), `neuron_alloc_pskb` returns a
buffer whose head has `len = n mod 2^32`; the length is `n` itself whenever
`n < 2^32`. -/
theorem alloc_pskb_len (K : KConfig) (A : Allocator) (gfp n : Nat) (h0 : Heap) (fuel : Nat)
    (hM : 0 < max_frag_len K)
    (hA : ∀ i, i < (n - 1) / max_frag_len K + 1 →
      ∃ t, A (h0.log.length + i) (fragLen (max_frag_len K) n i) gfp = Except.ok t)
    (hfuel : (n - 1) / max_frag_len K + 1 ≤ fuel) :
    ∃ h' s, neuron_alloc_pskb K A fuel n gfp h0 = some (Ret.skb h0.brk, h') ∧
      h'.mem h0.brk = some s ∧ s.len = n % U32 ∧ (n < U32 → s.len = n) := by
  obtain ⟨h', s, h1, h2, h3, _⟩ := alloc_pskb_head K A gfp n h0 fuel hM hA hfuel
  exact ⟨h', s, h1, h2, h3, fun hn => by rw [h3, Nat.mod_eq_of_lt hn]⟩

theorem alloc_pskb_len_witness :
    0 < max_frag_len sampleConfig ∧
    (∀ i, i < (100000 - 1) / max_frag_len sampleConfig + 1 →
      ∃ t, failingAllocator (emptyHeap.log.length + i)
        (fragLen (max_frag_len sampleConfig) 100000 i) 0 = Except.ok t) ∧
    (100000 - 1) / max_frag_len sampleConfig + 1 ≤ 2 ∧
    ∃ h' s, neuron_alloc_pskb sampleConfig failingAllocator 2 100000 0 emptyHeap =
        some (Ret.skb emptyHeap.brk, h') ∧
      h'.mem emptyHeap.brk = some s ∧ s.len = 100000 % U32 ∧ (100000 < U32 → s.len = 100000) :=
  have hA : ∀ i, i < (100000 - 1) / max_frag_len sampleConfig + 1 →
      ∃ t, failingAllocator (emptyHeap.log.length + i)
        (fragLen (max_frag_len sampleConfig) 100000 i) 0 = Except.ok t := by
    intro i hi
    have hk : (100000 - 1) / max_frag_len sampleConfig + 1 = 2 := by decide
    rw [hk] at hi
    have : i = 0 ∨ i = 1 := by omega
    rcases this with h | h <;> subst h <;> exact ⟨_, rfl⟩
  ⟨by decide, hA, by decide,
    alloc_pskb_len sampleConfig failingAllocator 0 100000 emptyHeap 2 (by decide) hA
      (by decide)⟩

/-- C1 (as stated) fails: for `n = 2^32` and 69632-byte segments the call succeeds with
61681 segments and the head has `len = 0`, not `n`. -/
theorem alloc_pskb_len_wraps :
    ∃ h' s, neuron_alloc_pskb sampleConfig sampleAllocator 61681 4294967296 0 emptyHeap =
        some (Ret.skb 0, h') ∧
      h'.mem 0 = some s ∧ s.len = 0 ∧ s.len ≠ 4294967296 := by
  obtain ⟨h', s, h1, h2, h3, _⟩ := alloc_pskb_head sampleConfig sampleAllocator 0 4294967296
    emptyHeap 61681 (by decide) (fun _ _ => ⟨_, rfl⟩) (by decide)
  have h4 : s.len = 0 := by rw [h3]; decide
  exact ⟨h', s, h1, h2, h4, by rw [h4]; decide⟩

/-- C2: if the `k`-th segment allocation of a call fails with error code `e` after the
first `k - 1` succeeded, the call returns `ERR_PTR(e)` and no buffer, the `k - 1` segments
allocated by the call are no longer live, and the live buffers are those from before
the call. -/
theorem alloc_pskb_failure (K : KConfig) (A : Allocator) (gfp n : Nat) (h0 : Heap)
    (k fuel : Nat) (e : Int)
    (hwf : ∀ a, h0.brk ≤ a → h0.mem a = none)
    (hk : 1 ≤ k)
    (hreach : k = 1 ∨ (k - 1) * max_frag_len K < n)
    (hA : ∀ i, i < k - 1 →
      ∃ t, A (h0.log.length + i) (fragLen (max_frag_len K) n i) gfp = Except.ok t)
    (hE : A (h0.log.length + (k - 1)) (fragLen (max_frag_len K) n (k - 1)) gfp =
      Except.error e)
    (hfuel : k ≤ fuel) :
    ∃ h', neuron_alloc_pskb K A fuel n gfp h0 = some (Ret.err e, h') ∧
      h'.mem = h0.mem ∧
      (h'.log.drop h0.log.length).map AllocRec.skb =
        (List.range' h0.brk (k - 1)).map some ++ [none] ∧
      (∀ p, some p ∈ (h'.log.drop h0.log.length).map AllocRec.skb → h'.mem p = none) := by
  obtain ⟨d, rfl⟩ : ∃ d, k = d + 1 := ⟨k - 1, by omega⟩
  simp only [Nat.add_sub_cancel] at hreach hA hE ⊢
  have hlo : d = 0 ∨ d * max_frag_len K < n := by
    rcases hreach with h | h
    · left; omega
    · right; exact h
  have hrun := loop_failure K A gfp h0 n d fuel
    (truesizeOf A gfp h0.log.length (fragLen (max_frag_len K) n)) e hwf
    (fun i hi => truesizeOf_spec A gfp h0.log.length _ i (hA i hi)) hE hlo hfuel
  have hlog : (((heapAfter h0 d (fragLen (max_frag_len K) n)
      (truesizeOf A gfp h0.log.length (fragLen (max_frag_len K) n))).log ++
      [(⟨fragLen (max_frag_len K) n d, none, 0⟩ : AllocRec)]).drop h0.log.length).map
        AllocRec.skb = (List.range' h0.brk d).map some ++ [none] := by
    have hlen : h0.log.length ≤ (heapAfter h0 d (fragLen (max_frag_len K) n)
      (truesizeOf A gfp h0.log.length (fragLen (max_frag_len K) n))).log.length := by
      simp [heapAfter]
    rw [List.drop_append_of_le_length hlen, List.map_append, news_skb]
    rfl
  refine ⟨_, hrun, rfl, hlog, ?_⟩
  intro p hp
  simp only [hlog] at hp
  simp only [List.mem_append, List.mem_map, List.mem_range', List.mem_singleton] at hp
  rcases hp with ⟨a, ⟨i, _, rfl⟩, ha⟩ | hp
  · simp only [Option.some.injEq] at ha
    subst ha
    exact hwf _ (by omega)
  · cases hp

theorem alloc_pskb_failure_witness :
    (∀ a, emptyHeap.brk ≤ a → emptyHeap.mem a = none) ∧ 1 ≤ 3 ∧
    (3 = 1 ∨ (3 - 1) * max_frag_len sampleConfig < 200000) ∧
    (∀ i, i < 3 - 1 → ∃ t, failingAllocator (emptyHeap.log.length + i)
      (fragLen (max_frag_len sampleConfig) 200000 i) 0 = Except.ok t) ∧
    failingAllocator (emptyHeap.log.length + (3 - 1))
      (fragLen (max_frag_len sampleConfig) 200000 (3 - 1)) 0 = Except.error (-105) ∧
    3 ≤ 3 ∧
    ∃ h', neuron_alloc_pskb sampleConfig failingAllocator 3 200000 0 emptyHeap =
        some (Ret.err (-105), h') ∧
      h'.mem = emptyHeap.mem ∧
      (h'.log.drop emptyHeap.log.length).map AllocRec.skb =
        (List.range' emptyHeap.brk (3 - 1)).map some ++ [none] ∧
      (∀ p, some p ∈ (h'.log.drop emptyHeap.log.length).map AllocRec.skb →
        h'.mem p = none) :=
  have hwf : ∀ a, emptyHeap.brk ≤ a → emptyHeap.mem a = none := fun _ _ => rfl
  have hA : ∀ i, i < 3 - 1 → ∃ t, failingAllocator (emptyHeap.log.length + i)
      (fragLen (max_frag_len sampleConfig) 200000 i) 0 = Except.ok t := by
    intro i hi
    have : i = 0 ∨ i = 1 := by omega
    rcases this with h | h <;> subst h <;> exact ⟨_, rfl⟩
  ⟨hwf, by decide, Or.inr (by decide), hA, rfl, by decide,
    alloc_pskb_failure sampleConfig failingAllocator 0 200000 emptyHeap 3 3 (-105)
      hwf (by decide) (Or.inr (by decide)) hA rfl (by decide)⟩

/-- C3: a call for size 0 under a succeeding allocator performs exactly one allocation,
of length 0, and returns a buffer that is this single segment: `len = 0`,
`data_len = 0`, and neither `frag_list` nor `next` is set. -/
theorem alloc_pskb_zero (K : KConfig) (A : Allocator) (gfp : Nat) (h0 : Heap)
    (fuel t : Nat)
    (hA : A h0.log.length 0 gfp = Except.ok t) (hfuel : 1 ≤ fuel) :
    ∃ h', neuron_alloc_pskb K A fuel 0 gfp h0 = some (Ret.skb h0.brk, h') ∧
      h'.log = h0.log ++ [⟨0, some h0.brk, t % U32⟩] ∧
      h'.mem h0.brk = some ⟨0, 0, t % U32, none, none⟩ ∧
      (∀ a, a ≠ h0.brk → h'.mem a = h0.mem a) ∧
      skb_segments h' h0.brk = [h0.brk] := by
  have hf : fragLen (max_frag_len K) 0 0 = 0 := by simp [fragLen]
  have hrun := loop_success K A gfp h0 0 0 fuel (fun _ => t)
    (fun i hi => by
      have : i = 0 := by omega
      subst this
      rw [hf]
      exact hA)
    (Or.inl rfl) (Nat.zero_le _) hfuel
  refine ⟨_, hrun, ?_, ?_, ?_, ?_⟩
  · simp [heapAfter, hf, List.range_succ]
  · rw [heapAfter_head h0 _ _ _ (Nat.le_refl _)]
    simp [sumTo, hf]
  · intro a ha
    have : ¬ (h0.brk < a ∧ a < h0.brk + 1) := by omega
    simp [heapAfter, memAfter, ha, this]
  · rw [skb_segments_after h0 _ _ _ (Nat.le_refl _)]
    rfl

theorem alloc_pskb_zero_witness :
    sampleAllocator emptyHeap.log.length 0 0 = Except.ok 768 ∧ 1 ≤ 1 ∧
    ∃ h', neuron_alloc_pskb sampleConfig sampleAllocator 1 0 0 emptyHeap =
        some (Ret.skb emptyHeap.brk, h') ∧
      h'.log = emptyHeap.log ++ [⟨0, some emptyHeap.brk, 768 % U32⟩] ∧
      h'.mem emptyHeap.brk = some ⟨0, 0, 768 % U32, none, none⟩ ∧
      (∀ a, a ≠ emptyHeap.brk → h'.mem a = emptyHeap.mem a) ∧
      skb_segments h' emptyHeap.brk = [emptyHeap.brk] :=
  ⟨rfl, by decide,
    alloc_pskb_zero sampleConfig sampleAllocator 0 emptyHeap 1 768 rfl (by decide)⟩

/-- C8: for every size `n > 0` and longest segment `M > 0`, whenever each of the
`k = ceil(n / M)` segment allocations that the call makes succeeds (the allocator may
fail at any other call), the call returns after exactly these `k` allocations; the
first `k - 1` ask for `M` bytes and the last for `n - (k - 1) * M`, which lies in `1..M`,
so that request `i` is `min(remaining, M)`; the segments of the buffer in chain order
are the `k` buffers in the order of their allocation: all of them are live, the
`frag_list` of the head is the second buffer (null when `k = 1`), the `next` of every
continuation segment but the last is the buffer allocated after it, and the `next` of
the head and of the last segment are null. -/
theorem alloc_pskb_segments (K : KConfig) (A : Allocator) (gfp n : Nat) (h0 : Heap)
    (fuel : Nat)
    (hn : 0 < n) (hM : 0 < max_frag_len K)
    (hA : ∀ i, i < (n + max_frag_len K - 1) / max_frag_len K →
      ∃ t, A (h0.log.length + i) (fragLen (max_frag_len K) n i) gfp = Except.ok t)
    (hfuel : (n + max_frag_len K - 1) / max_frag_len K ≤ fuel) :
    ∃ h', neuron_alloc_pskb K A fuel n gfp h0 = some (Ret.skb h0.brk, h') ∧
      (h'.log.drop h0.log.length).length = (n + max_frag_len K - 1) / max_frag_len K ∧
      (h'.log.drop h0.log.length).map AllocRec.data_len =
        List.replicate ((n + max_frag_len K - 1) / max_frag_len K - 1) (max_frag_len K) ++
          [n - ((n + max_frag_len K - 1) / max_frag_len K - 1) * max_frag_len K] ∧
      (h'.log.drop h0.log.length).map AllocRec.data_len =
        (List.range ((n + max_frag_len K - 1) / max_frag_len K)).map
          (fun i => min (n - i * max_frag_len K) (max_frag_len K)) ∧
      1 ≤ n - ((n + max_frag_len K - 1) / max_frag_len K - 1) * max_frag_len K ∧
      n - ((n + max_frag_len K - 1) / max_frag_len K - 1) * max_frag_len K ≤ max_frag_len K ∧
      skb_segments h' h0.brk =
        List.range' h0.brk ((n + max_frag_len K - 1) / max_frag_len K) ∧
      (skb_segments h' h0.brk).map some = (h'.log.drop h0.log.length).map AllocRec.skb ∧
      (∃ s, h'.mem h0.brk = some s ∧ s.next = none ∧
        s.frag_list = if 2 ≤ (n + max_frag_len K - 1) / max_frag_len K
          then some (h0.brk + 1) else none) ∧
      (∀ i, 1 ≤ i → i < (n + max_frag_len K - 1) / max_frag_len K →
        ∃ c, h'.mem (h0.brk + i) = some c ∧ c.frag_list = none ∧
          c.next = if i + 1 < (n + max_frag_len K - 1) / max_frag_len K
            then some (h0.brk + (i + 1)) else none) := by
  rw [ceil_eq _ _ hM hn] at hfuel hA ⊢
  obtain ⟨hlo, hhi⟩ := div_bounds (max_frag_len K) n hM
  have hlt : (n - 1) / max_frag_len K * max_frag_len K < n := by
    rcases hlo with h | h
    · rw [h]; omega
    · exact h
  have hlast := fragLen_last (max_frag_len K) n _ hhi
  refine ⟨_, alloc_pskb_run K A gfp n h0 fuel hM hA hfuel, ?_, ?_, ?_, ?_, ?_, ?_, ?_, ?_, ?_⟩
  · simp [heapAfter_news]
  · rw [news_lens, Nat.add_sub_cancel, List.range_succ, List.map_append,
      map_range_replicate _ (max_frag_len K) _
        (fun i hi => fragLen_full (max_frag_len K) n i _ hi hlt)]
    simp [hlast]
  · rw [news_lens]
    rfl
  · rw [Nat.add_sub_cancel]; omega
  · rw [Nat.add_sub_cancel]
    rw [Nat.succ_mul] at hhi
    omega
  · exact skb_segments_after h0 _ _ _ (Nat.le_add_left 1 _)
  · rw [skb_segments_after h0 _ _ _ (Nat.le_add_left 1 _), news_skb]
  · exact ⟨_, heapAfter_head h0 _ _ _ (Nat.le_add_left 1 _), rfl, rfl⟩
  · intro i h1 h2
    exact ⟨_, heapAfter_cont h0 _ i _ _ h1 h2, rfl, rfl⟩

theorem alloc_pskb_segments_witness :
    0 < 100000 ∧ 0 < max_frag_len sampleConfig ∧
    (∀ i, i < (100000 + max_frag_len sampleConfig - 1) / max_frag_len sampleConfig →
      ∃ t, failingAllocator (emptyHeap.log.length + i)
        (fragLen (max_frag_len sampleConfig) 100000 i) 0 = Except.ok t) ∧
    (100000 + max_frag_len sampleConfig - 1) / max_frag_len sampleConfig ≤ 2 ∧
    ∃ h', neuron_alloc_pskb sampleConfig failingAllocator 2 100000 0 emptyHeap =
        some (Ret.skb emptyHeap.brk, h') ∧
      (h'.log.drop emptyHeap.log.length).length =
        (100000 + max_frag_len sampleConfig - 1) / max_frag_len sampleConfig ∧
      (h'.log.drop emptyHeap.log.length).map AllocRec.data_len =
        List.replicate ((100000 + max_frag_len sampleConfig - 1) / max_frag_len sampleConfig - 1)
            (max_frag_len sampleConfig) ++
          [100000 - ((100000 + max_frag_len sampleConfig - 1) / max_frag_len sampleConfig - 1)
            * max_frag_len sampleConfig] ∧
      (h'.log.drop emptyHeap.log.length).map AllocRec.data_len =
        (List.range ((100000 + max_frag_len sampleConfig - 1) / max_frag_len sampleConfig)).map
          (fun i => min (100000 - i * max_frag_len sampleConfig) (max_frag_len sampleConfig)) ∧
      1 ≤ 100000 - ((100000 + max_frag_len sampleConfig - 1) / max_frag_len sampleConfig - 1)
        * max_frag_len sampleConfig ∧
      100000 - ((100000 + max_frag_len sampleConfig - 1) / max_frag_len sampleConfig - 1)
        * max_frag_len sampleConfig ≤ max_frag_len sampleConfig ∧
      skb_segments h' emptyHeap.brk =
        List.range' emptyHeap.brk
          ((100000 + max_frag_len sampleConfig - 1) / max_frag_len sampleConfig) ∧
      (skb_segments h' emptyHeap.brk).map some =
        (h'.log.drop emptyHeap.log.length).map AllocRec.skb ∧
      (∃ s, h'.mem emptyHeap.brk = some s ∧ s.next = none ∧
        s.frag_list =
          if 2 ≤ (100000 + max_frag_len sampleConfig - 1) / max_frag_len sampleConfig
          then some (emptyHeap.brk + 1) else none) ∧
      (∀ i, 1 ≤ i →
        i < (100000 + max_frag_len sampleConfig - 1) / max_frag_len sampleConfig →
        ∃ c, h'.mem (emptyHeap.brk + i) = some c ∧ c.frag_list = none ∧
          c.next =
            if i + 1 < (100000 + max_frag_len sampleConfig - 1) / max_frag_len sampleConfig
            then some (emptyHeap.brk + (i + 1)) else none) :=
  have hA : ∀ i,
      i < (100000 + max_frag_len sampleConfig - 1) / max_frag_len sampleConfig →
      ∃ t, failingAllocator (emptyHeap.log.length + i)
        (fragLen (max_frag_len sampleConfig) 100000 i) 0 = Except.ok t := by
    intro i hi
    have hk : (100000 + max_frag_len sampleConfig - 1) / max_frag_len sampleConfig = 2 := by
      decide
    rw [hk] at hi
    have : i = 0 ∨ i = 1 := by omega
    rcases this with h | h <;> subst h <;> exact ⟨_, rfl⟩
  ⟨by decide, by decide, hA, by decide,
    alloc_pskb_segments sampleConfig failingAllocator 0 100000 emptyHeap 2 (by decide)
      (by decide) hA (by decide)⟩

/-- C9 (amended): whenever each segment allocation that the call makes succeeds (the
allocator may fail at any other call), the head of the buffer that the call returns has
`len = data_len`, both the sum of the lengths asked for modulo `2^32`, and `truesize` the
sum of the `truesize` values of all segments modulo `2^32` (so the totals are exact when
the sums are below `2^32`); every continuation segment keeps `len = data_len =` the
length asked for it, segments being shorter than `2^32`. -/
theorem alloc_pskb_totals (K : KConfig) (A : Allocator) (gfp n : Nat) (h0 : Heap)
    (fuel : Nat)
    (hM : 0 < max_frag_len K) (hM32 : max_frag_len K < U32)
    (hA : ∀ i, i < (n - 1) / max_frag_len K + 1 →
      ∃ t, A (h0.log.length + i) (fragLen (max_frag_len K) n i) gfp = Except.ok t)
    (hfuel : (n - 1) / max_frag_len K + 1 ≤ fuel) :
    ∃ h' s, neuron_alloc_pskb K A fuel n gfp h0 = some (Ret.skb h0.brk, h') ∧
      h'.mem h0.brk = some s ∧ s.len = s.data_len ∧
      s.len = ((h'.log.drop h0.log.length).map AllocRec.data_len).sum % U32 ∧
      s.truesize = ((h'.log.drop h0.log.length).map AllocRec.truesize).sum % U32 ∧
      (((h'.log.drop h0.log.length).map AllocRec.data_len).sum < U32 →
        s.len = ((h'.log.drop h0.log.length).map AllocRec.data_len).sum) ∧
      (((h'.log.drop h0.log.length).map AllocRec.truesize).sum < U32 →
        s.truesize = ((h'.log.drop h0.log.length).map AllocRec.truesize).sum) ∧
      (∀ rec, rec ∈ (h'.log.drop h0.log.length).tail →
        ∃ p c, rec.skb = some p ∧ h'.mem p = some c ∧
          c.len = rec.data_len ∧ c.data_len = rec.data_len ∧ c.truesize = rec.truesize) := by
  obtain ⟨h', s, h1, h2, h3, h4, h5, h6, h7⟩ := alloc_pskb_head K A gfp n h0 fuel hM hA hfuel
  refine ⟨h', s, h1, h2, by rw [h3, h4], by rw [h3, h6], h5,
    fun hlt => by rw [h3, h6]; rw [h6] at hlt; exact Nat.mod_eq_of_lt hlt,
    fun hlt => by rw [h5]; exact Nat.mod_eq_of_lt hlt, ?_⟩
  intro rec hrec
  subst h7
  rw [heapAfter_news, List.range_succ_eq_map, List.map_cons, List.tail_cons,
    List.map_map] at hrec
  obtain ⟨i, hi, rfl⟩ := List.mem_map.1 hrec
  have hi2 : i < (n - 1) / max_frag_len K := List.mem_range.1 hi
  have hle := fragLen_le (max_frag_len K) n (i + 1)
  have hmod : fragLen (max_frag_len K) n (i + 1) % U32 = fragLen (max_frag_len K) n (i + 1) :=
    Nat.mod_eq_of_lt (by omega)
  refine ⟨h0.brk + (i + 1), _, rfl,
    heapAfter_cont h0 _ (i + 1) _ _ (by omega) (by omega), ?_, ?_, ?_⟩
  · exact hmod
  · exact hmod
  · rfl

theorem alloc_pskb_totals_witness :
    0 < max_frag_len sampleConfig ∧ max_frag_len sampleConfig < U32 ∧
    (∀ i, i < (100000 - 1) / max_frag_len sampleConfig + 1 →
      ∃ t, failingAllocator (emptyHeap.log.length + i)
        (fragLen (max_frag_len sampleConfig) 100000 i) 0 = Except.ok t) ∧
    (100000 - 1) / max_frag_len sampleConfig + 1 ≤ 2 ∧
    ∃ h' s, neuron_alloc_pskb sampleConfig failingAllocator 2 100000 0 emptyHeap =
        some (Ret.skb emptyHeap.brk, h') ∧
      h'.mem emptyHeap.brk = some s ∧ s.len = s.data_len ∧
      s.len = ((h'.log.drop emptyHeap.log.length).map AllocRec.data_len).sum % U32 ∧
      s.truesize = ((h'.log.drop emptyHeap.log.length).map AllocRec.truesize).sum % U32 ∧
      (((h'.log.drop emptyHeap.log.length).map AllocRec.data_len).sum < U32 →
        s.len = ((h'.log.drop emptyHeap.log.length).map AllocRec.data_len).sum) ∧
      (((h'.log.drop emptyHeap.log.length).map AllocRec.truesize).sum < U32 →
        s.truesize = ((h'.log.drop emptyHeap.log.length).map AllocRec.truesize).sum) ∧
      (∀ rec, rec ∈ (h'.log.drop emptyHeap.log.length).tail →
        ∃ p c, rec.skb = some p ∧ h'.mem p = some c ∧
          c.len = rec.data_len ∧ c.data_len = rec.data_len ∧ c.truesize = rec.truesize) :=
  have hA : ∀ i, i < (100000 - 1) / max_frag_len sampleConfig + 1 →
      ∃ t, failingAllocator (emptyHeap.log.length + i)
        (fragLen (max_frag_len sampleConfig) 100000 i) 0 = Except.ok t := by
    intro i hi
    have hk : (100000 - 1) / max_frag_len sampleConfig + 1 = 2 := by decide
    rw [hk] at hi
    have : i = 0 ∨ i = 1 := by omega
    rcases this with h | h <;> subst h <;> exact ⟨_, rfl⟩
  ⟨by decide, by decide, hA, by decide,
    alloc_pskb_totals sampleConfig failingAllocator 0 100000 emptyHeap 2 (by decide)
      (by decide) hA (by decide)⟩

/-- C9 (as stated) fails: for `n = 2^32` and 69632-byte segments the call succeeds and
the head has `len = data_len = 0` although the lengths asked for sum to `2^32`, and its
`truesize` is not the sum of the `truesize` values of the segments either. -/
theorem alloc_pskb_totals_wrap :
    ∃ h' s, neuron_alloc_pskb sampleConfig sampleAllocator 61681 4294967296 0 emptyHeap =
        some (Ret.skb 0, h') ∧
      h'.mem 0 = some s ∧
      (h'.log.map AllocRec.data_len).sum = 4294967296 ∧
      s.len = 0 ∧ s.data_len = 0 ∧
      s.len ≠ (h'.log.map AllocRec.data_len).sum ∧
      s.truesize ≠ (h'.log.map AllocRec.truesize).sum := by
  obtain ⟨h', s, h1, h2, h3, h4, h5, h6, h7⟩ := alloc_pskb_head sampleConfig sampleAllocator 0
    4294967296 emptyHeap 61681 (by decide) (fun _ _ => ⟨_, rfl⟩) (by decide)
  have e0 : emptyHeap.log.length = 0 := rfl
  rw [e0, List.drop_zero] at h5 h6
  have h8 : s.len = 0 := by rw [h3]; decide
  have h9 : s.data_len = 0 := by rw [h4]; decide
  refine ⟨h', s, h1, h2, h6, h8, h9, by rw [h8, h6]; decide, ?_⟩
  have hU : 0 < U32 := by decide
  have hlt : s.truesize < U32 := by rw [h5]; exact Nat.mod_lt _ hU
  have hge : U32 ≤ (h'.log.map AllocRec.truesize).sum := by
    have hts := news_truesize emptyHeap ((4294967296 - 1) / max_frag_len sampleConfig + 1)
      (fragLen (max_frag_len sampleConfig) 4294967296)
      (truesizeOf sampleAllocator 0 emptyHeap.log.length
        (fragLen (max_frag_len sampleConfig) 4294967296))
    rw [← h7, e0, List.drop_zero] at hts
    rw [hts, sum_map_range]
    have hsum := sumTo_fragLen_all (max_frag_len sampleConfig) 4294967296 (by decide)
    have hmono := sumTo_le (fragLen (max_frag_len sampleConfig) 4294967296)
      (fun i => truesizeOf sampleAllocator 0 0
        (fragLen (max_frag_len sampleConfig) 4294967296) i % U32)
      ((4294967296 - 1) / max_frag_len sampleConfig + 1)
      (fun i _ => by
        have hle := fragLen_le (max_frag_len sampleConfig) 4294967296 i
        have hM : max_frag_len sampleConfig = 69632 := by decide
        have ht : truesizeOf sampleAllocator 0 0
            (fragLen (max_frag_len sampleConfig) 4294967296) i =
            fragLen (max_frag_len sampleConfig) 4294967296 i + 768 := rfl
        show _ ≤ truesizeOf sampleAllocator 0 0
            (fragLen (max_frag_len sampleConfig) 4294967296) i % U32
        have hle2 := Nat.le_trans hle (Nat.le_of_eq hM)
        rw [ht, Nat.mod_eq_of_lt (by simp only [U32]; omega)]
        omega)
    rw [hsum] at hmono
    exact hmono
  omega

end Neuron
